import Mathlib

/-!
Verification of the download orchestration core of silvermine/tauri-plugin-download.

Shallow embedding of the Rust sources in crates/download-manager/src:
models.rs (DownloadItem, DownloadStatus, DownloadActionResponse), store.rs (DownloadStore),
validate.rs (path and url validation), manager.rs (DownloadManager) and downloader.rs
(the streaming download loop). The f64 progress field is modelled as Rat; machine files
are modelled as an association list from path to size in bytes; the change-notification
callback is modelled as an append-only list of emitted records; store accesses performed
by the downloader are additionally recorded as an explicit operation trace.
-/

/-- Mirrors models.rs DownloadStatus: lifecycle states of a download. -/
inductive DownloadStatus
  | Unknown
  | Pending
  | Idle
  | InProgress
  | Paused
  | Cancelled
  | Completed
deriving DecidableEq, Repr

/-- Mirrors models.rs DownloadItem: url, path (unique key), progress (f64 in Rust,
modelled as Rat) and status. -/
structure DownloadItem where
  url : String
  path : String
  progress : Rat
  status : DownloadStatus
deriving DecidableEq, Repr

/-- Mirrors models.rs DownloadItem::with_progress: sets progress and forces status
to InProgress. -/
def DownloadItem.with_progress (i : DownloadItem) (new_progress : Rat) : DownloadItem :=
  { i with progress := new_progress, status := DownloadStatus.InProgress }

/-- Mirrors models.rs DownloadItem::with_status: sets status, and forces progress to 100
when the new status is Completed. -/
def DownloadItem.with_status (i : DownloadItem) (new_status : DownloadStatus) : DownloadItem :=
  { i with
    progress := if new_status = DownloadStatus.Completed then 100 else i.progress,
    status := new_status }

/-- Mirrors models.rs DownloadActionResponse: the shared response shape of the gated
manager operations. -/
structure DownloadActionResponse where
  download : DownloadItem
  expected_status : DownloadStatus
  is_expected_status : Bool
deriving DecidableEq, Repr

/-- Mirrors DownloadActionResponse::new: expected status is the record's own status,
flag is true. -/
def DownloadActionResponse.new (download : DownloadItem) : DownloadActionResponse :=
  { download := download,
    expected_status := download.status,
    is_expected_status := true }

/-- Mirrors DownloadActionResponse::with_expected_status: flag records whether the
record's actual status equals the expected one. -/
def DownloadActionResponse.with_expected_status (download : DownloadItem)
    (expected_status : DownloadStatus) : DownloadActionResponse :=
  { download := download,
    expected_status := expected_status,
    is_expected_status := decide (download.status = expected_status) }

/-- Mirrors error.rs Error (payload strings kept; the Io variant carries its message). -/
inductive Error
  | InvalidState
  | NotFound (path : String)
  | Store (msg : String)
  | File (msg : String)
  | Http (msg : String)
  | Url (msg : String)
  | Path (msg : String)
  | Io (msg : String)
deriving DecidableEq, Repr

/-- Mirrors manager.rs DOWNLOAD_SUFFIX. -/
def DOWNLOAD_SUFFIX : String := ".download"

/-- Temp-file path for a download path, as built by manager.rs and downloader.rs:
the destination path with DOWNLOAD_SUFFIX appended. -/
def tempPath (path : String) : String := path ++ DOWNLOAD_SUFFIX

/-- The in-memory contents of the DownloadStore: the Vec of download items of store.rs
(disk persistence always mirrors it, so it is not modelled separately). -/
abbrev Store := List DownloadItem

namespace DownloadStore

/-- Mirrors store.rs DownloadStore::find_by_path: first item with the given path. -/
def find_by_path : Store → String → Option DownloadItem
  | [], _ => none
  | i :: rest, path => if i.path = path then some i else find_by_path rest path

/-- Mirrors store.rs DownloadStore::create: error if any item has the path, otherwise
push the item at the end. -/
def create (s : Store) (item : DownloadItem) : Except Error (DownloadItem × Store) :=
  if s.any (fun i => decide (i.path = item.path)) then
    Except.error (Error.Store ("Item already exists for path: " ++ item.path))
  else
    Except.ok (item, s ++ [item])

/-- Mirrors store.rs DownloadStore::update: replace the first item with the same path;
silent no-op when no item matches. -/
def update : Store → DownloadItem → Store
  | [], _ => []
  | i :: rest, item =>
      if i.path = item.path then item :: rest else i :: update rest item

/-- Mirrors store.rs DownloadStore::delete: retain the items whose path differs. -/
def delete : Store → String → Store
  | [], _ => []
  | i :: rest, path =>
      if i.path = path then delete rest path else i :: delete rest path

end DownloadStore

/-- Splits a character list on a separator character, with an accumulator for the
current component (strings are handled as char lists throughout the validators). -/
def splitChar (sep : Char) : List Char → List Char → List (List Char)
  | [], acc => [acc.reverse]
  | c :: cs, acc =>
      if c = sep then acc.reverse :: splitChar sep cs []
      else splitChar sep cs (c :: acc)

/-- Splits at the first occurrence of a separator character: the parts before and after
it, or none when the separator does not occur. -/
def splitFirstChar (sep : Char) : List Char → Option (List Char × List Char)
  | [] => none
  | c :: cs =>
      if c = sep then some ([], cs)
      else
        match splitFirstChar sep cs with
        | none => none
        | some (l, r) => some (c :: l, r)

/-- Model of std Path::file_name for Unix paths: the last non-empty component with
"." components ignored; none when the path is a root or ends in "..". -/
def pathFileName (p : String) : Option (List Char) :=
  let comps := (splitChar '/' p.data []).filter (fun c => c ≠ [] ∧ c ≠ ['.'])
  match comps.getLast? with
  | none => none
  | some c => if c = ['.', '.'] then none else some c

/-- Mirrors validate.rs path: non-empty, absolute (Unix: begins with a slash, modelling
std Path::is_absolute), and has a filename component. -/
def validatePath (p : String) : Except Error Unit :=
  if p.data = [] then
    Except.error (Error.Path ("path cannot be empty"))
  else if p.data.head? ≠ some '/' then
    Except.error (Error.Path ("path must be absolute"))
  else if pathFileName p = none then
    Except.error (Error.Path ("path must have a filename"))
  else
    Except.ok ()

/-- Mirrors validate.rs url, with the url crate's parser modelled down to what the
validator inspects: a scheme before a colon, a "//" introducing the authority, and the
host taken from the authority (text up to the first slash) with userinfo and port
stripped; inputs that do not fit that shape fail to parse. -/
def validateUrl (u : String) : Except Error Unit :=
  if u.data = [] then
    Except.error (Error.Url ("URL cannot be empty"))
  else
    match splitFirstChar ':' u.data with
    | none => Except.error (Error.Url ("Invalid URL"))
    | some (scheme, rest) =>
      if scheme = [] then
        Except.error (Error.Url ("Invalid URL"))
      else if scheme ≠ "http".data ∧ scheme ≠ "https".data then
        Except.error (Error.Url ("Invalid URL scheme: must be http or https"))
      else
        match rest with
        | '/' :: '/' :: rest2 =>
          let authority := (splitChar '/' rest2 []).headD []
          let afterUser := ((splitChar '@' authority []).getLast?).getD []
          let host := (splitChar ':' afterUser []).headD []
          if host = [] then
            Except.error (Error.Url ("URL must have a host"))
          else
            Except.ok ()
        | _ => Except.error (Error.Url ("Invalid URL"))

/-- Association list from file path to size in bytes, modelling the flat files the
subsystem touches (partial files and finalized downloads). -/
abbrev FileSys := List (String × Nat)

/-- Size in bytes of the file at a path; 0 when the file does not exist, matching the
exists/metadata check of downloader.rs. -/
def fileSize : FileSys → String → Nat
  | [], _ => 0
  | (q, m) :: rest, p => if q = p then m else fileSize rest p

/-- Opening a file with create(true) and append(true): an existing file is kept, a
missing one is created empty. -/
def ensureFile (fs : FileSys) (p : String) : FileSys :=
  match fileSize fs p, fs.any (fun e => decide (e.1 = p)) with
  | _, true => fs
  | _, false => (p, 0) :: fs

/-- Appending n bytes to the file at a path (creating it when absent, as append mode
with create(true) does). -/
def appendFile : FileSys → String → Nat → FileSys
  | [], p, n => [(p, n)]
  | (q, m) :: rest, p, n =>
      if q = p then (q, m + n) :: rest else (q, m) :: appendFile rest p n

/-- Removing the file at a path; no-op when absent. -/
def removeFile (fs : FileSys) (p : String) : FileSys :=
  fs.filter (fun e => decide (e.1 ≠ p))

/-- Renaming a file: the destination receives the source's bytes, the source entry
disappears. -/
def renameFile (fs : FileSys) (src dst : String) : FileSys :=
  (dst, fileSize fs src) :: removeFile (removeFile fs src) dst

/-- The world the embedded code acts on: the store contents, the file system, and the
list of records emitted through the on_changed callback (oldest first). -/
structure World where
  store : Store
  files : FileSys
  events : List DownloadItem
deriving DecidableEq, Repr

/-- One store access performed by the embedded code; traces of these model the
sequence of DownloadStore calls the downloader makes. -/
inductive StoreOp
  | get (path : String)
  | update (item : DownloadItem)
  | delete (path : String)
deriving DecidableEq, Repr

/-- Effect of a store operation on store contents (get reads only). -/
def applyStoreOp (s : Store) : StoreOp → Store
  | StoreOp.get _ => s
  | StoreOp.update item => DownloadStore.update s item
  | StoreOp.delete p => DownloadStore.delete s p

/-- Effect of a list of store mutations, used to model Manager calls (pause and cancel
mutate the store) interleaved with the downloader loop. -/
def applyMuts (ops : List StoreOp) (s : Store) : Store :=
  ops.foldl applyStoreOp s

deriving instance DecidableEq for Except

/-- HTTP response as the downloader observes it: status code, the content-length header,
and the body as a sequence of chunks, where each chunk either delivers a number of bytes
or is a stream error carrying a message. -/
structure HttpResponse where
  status : Nat
  contentLength : Option Nat
  chunks : List (Except String Nat)
deriving DecidableEq, Repr

/-- Behavior of the environment for one downloader run: the result of sending the GET
request, and the store mutations other tasks perform between chunk arrivals (the list at
index k is applied before chunk k is processed). -/
structure DownloadConfig where
  response : Except String HttpResponse
  interleave : List (List StoreOp)
deriving DecidableEq, Repr

/-- Result of a downloader run: the returned value, the final world, and the trace of
store accesses the downloader performed. -/
structure DownloadResult where
  res : Except Error Unit
  world : World
  ops : List StoreOp
deriving DecidableEq, Repr

/-- Loop-local state of the streaming loop of downloader.rs: the world, the downloaded
byte counter, and last_emitted_progress. -/
structure LoopSt where
  w : World
  downloaded : Nat
  last : Rat
deriving DecidableEq, Repr

/-- Whether a chunk iteration continues the loop or breaks out of it. -/
inductive StepExit
  | cont
  | brk
deriving DecidableEq, Repr

/-- Result of processing one successfully-received chunk. -/
structure StepRes where
  st : LoopSt
  exit : StepExit
  ops : List StoreOp
deriving DecidableEq, Repr

/-- Mirrors downloader.rs PROGRESS_THRESHOLD. -/
def PROGRESS_THRESHOLD : Rat := 1

/-- Total expected size as downloader.rs computes it: content-length plus the bytes
already on disk, or 0 when the header is absent. -/
def totalSize (contentLength : Option Nat) (downloaded_size : Nat) : Nat :=
  match contentLength with
  | some len => len + downloaded_size
  | none => 0

/-- Progress computation of downloader.rs: downloaded / total * 100, or 0 when the total
size is unknown (f64 arithmetic modelled as exact Rat arithmetic). -/
def computeProgress (total downloaded : Nat) : Rat :=
  if 0 < total then ((downloaded : Rat) / (total : Rat)) * 100 else 0

namespace downloader

/-- Body of the Ok(data) arm of the streaming loop in downloader.rs: append the chunk to
the temp file, advance the counter, compute progress, skip when below the emission
threshold, otherwise re-read the live record and branch on its status (persist progress,
finalize at 100, break on Paused or on a missing record). The ops field records the
store accesses performed, in order. -/
def chunkStep (item : DownloadItem) (total len : Nat) (st : LoopSt) : StepRes :=
  let temp := tempPath item.path
  let w := { st.w with files := appendFile st.w.files temp len }
  let downloaded := st.downloaded + len
  let progress := computeProgress total downloaded
  if progress < 100 ∧ progress - st.last ≤ PROGRESS_THRESHOLD then
    -- Ignore any progress updates below the threshold.
    { st := { w := w, downloaded := downloaded, last := st.last },
      exit := StepExit.cont, ops := [] }
  else
    match DownloadStore.find_by_path w.store item.path with
    | some live =>
      match live.status with
      | DownloadStatus.InProgress =>
        if progress < 100 then
          -- Update item in store and emit change event.
          { st := { w := { w with
                      store := DownloadStore.update w.store (live.with_progress progress),
                      events := w.events ++ [live.with_progress progress] },
                    downloaded := downloaded, last := progress },
            exit := StepExit.cont,
            ops := [StoreOp.get item.path, StoreOp.update (live.with_progress progress)] }
        else if progress = 100 then
          -- Remove item from store, rename temp file to final path, emit Completed.
          { st := { w := { w with
                      store := DownloadStore.delete w.store live.path,
                      files := renameFile w.files temp live.path,
                      events := w.events ++ [live.with_status DownloadStatus.Completed] },
                    downloaded := downloaded, last := progress },
            exit := StepExit.cont,
            ops := [StoreOp.get item.path, StoreOp.delete live.path] }
        else
          { st := { w := w, downloaded := downloaded, last := progress },
            exit := StepExit.cont, ops := [StoreOp.get item.path] }
      | DownloadStatus.Paused =>
        { st := { w := w, downloaded := downloaded, last := progress },
          exit := StepExit.brk, ops := [StoreOp.get item.path] }
      | _ =>
        { st := { w := w, downloaded := downloaded, last := progress },
          exit := StepExit.cont, ops := [StoreOp.get item.path] }
    | none =>
      -- Download item was not found i.e. removed.
      { st := { w := w, downloaded := downloaded, last := progress },
        exit := StepExit.brk, ops := [StoreOp.get item.path] }

/-- The while-let streaming loop of downloader.rs over the remaining chunks: the Err arm
deletes the store record, removes the temp file and returns an Http error; the Ok arm is
chunkStep. Store mutations of concurrent Manager calls are applied before each chunk. -/
def downloadLoop (item : DownloadItem) (total : Nat) :
    List (Except String Nat) → List (List StoreOp) → LoopSt → DownloadResult
  | [], _, st => { res := Except.ok (), world := st.w, ops := [] }
  | c :: cs, inters, st =>
    let st0 : LoopSt := { st with w := { st.w with store := applyMuts (inters.headD []) st.w.store } }
    match c with
    | Except.ok len =>
      let r := chunkStep item total len st0
      match r.exit with
      | StepExit.brk => { res := Except.ok (), world := r.st.w, ops := r.ops }
      | StepExit.cont =>
        let rest := downloadLoop item total cs inters.tail r.st
        { res := rest.res, world := rest.world, ops := r.ops ++ rest.ops }
    | Except.error e =>
      -- Download error occurred: remove item from store and the partial download.
      { res := Except.error (Error.Http ("Failed to download: " ++ e)),
        world := { st0.w with
          store := DownloadStore.delete st0.w.store item.path,
          files := removeFile st0.w.files (tempPath item.path) },
        ops := [StoreOp.delete item.path] }

/-- Mirrors downloader.rs download: compute the resume offset from the temp file size,
send the request (the Range header is implied by a positive offset), enforce the
partial-content contract for non-zero offsets, compute the total size, open the temp
file in append mode, persist InProgress and emit it, then run the streaming loop. -/
def download (cfg : DownloadConfig) (w : World) (item : DownloadItem) : DownloadResult :=
  let temp := tempPath item.path
  let downloaded_size := fileSize w.files temp
  match cfg.response with
  | Except.error e =>
    { res := Except.error (Error.Http ("Failed to send request: " ++ e)),
      world := w, ops := [] }
  | Except.ok response =>
    if 0 < downloaded_size ∧ response.status ≠ 206 then
      { res := Except.error (Error.Http ("Server does not support partial downloads")),
        world := w, ops := [] }
    else
      let total_size := totalSize response.contentLength downloaded_size
      let w1 := { w with files := ensureFile w.files temp }
      let started := item.with_status DownloadStatus.InProgress
      let w2 := { w1 with
        store := DownloadStore.update w1.store started,
        events := w1.events ++ [started] }
      let r := downloadLoop item total_size response.chunks cfg.interleave
        { w := w2, downloaded := downloaded_size, last := 0 }
      { res := r.res, world := r.world, ops := StoreOp.update started :: r.ops }

end downloader

/-- Outcome of the task spawned by start/resume: the final world, the value the download
returned, and the trace of store accesses (download trace plus the rollback update). -/
structure TaskOutcome where
  world : World
  result : Except Error Unit
  ops : List StoreOp
deriving DecidableEq, Repr

/-- Outcome of a start/resume call together with its spawned task run to completion. -/
structure RunOutcome where
  resp : DownloadActionResponse
  world : World
  taskResult : Except Error Unit
  ops : List StoreOp
deriving DecidableEq, Repr

namespace DownloadManager

/-- Demotion applied by manager.rs init to one InProgress record: Idle when its progress
is exactly 0, otherwise Paused. -/
def initReconcile (item : DownloadItem) : DownloadItem :=
  item.with_status
    (if item.progress = 0 then DownloadStatus.Idle else DownloadStatus.Paused)

/-- The sequence of store updates init issues, one per snapshot item to demote. -/
def initFold (todo : List DownloadItem) (s : Store) : Store :=
  todo.foldl (fun acc item => DownloadStore.update acc (initReconcile item)) s

/-- Mirrors manager.rs init: demote every InProgress record of the listed snapshot
through one store update each. -/
def init (w : World) : World :=
  { w with
    store := initFold
      (w.store.filter (fun i => decide (i.status = DownloadStatus.InProgress)))
      w.store }

/-- Mirrors manager.rs get: validated read returning the persisted record, or a synthetic
Pending record (empty url, progress 0) when none exists. -/
def get (w : World) (path : String) : Except Error DownloadItem :=
  match validatePath path with
  | Except.error e => Except.error e
  | Except.ok _ =>
    match DownloadStore.find_by_path w.store path with
    | some item => Except.ok item
    | none =>
      Except.ok
        { url := "", path := path, progress := 0, status := DownloadStatus.Pending }

/-- Mirrors manager.rs create: validate path and url; an existing record is returned
unchanged with expected status Idle; otherwise a fresh Idle record is inserted. -/
def create (w : World) (path url : String) : Except Error (DownloadActionResponse × World) :=
  match validatePath path with
  | Except.error e => Except.error e
  | Except.ok _ =>
    match validateUrl url with
    | Except.error e => Except.error e
    | Except.ok _ =>
      match DownloadStore.find_by_path w.store path with
      | some existing =>
        Except.ok
          (DownloadActionResponse.with_expected_status existing DownloadStatus.Idle, w)
      | none =>
        match DownloadStore.create w.store
          { url := url, path := path, progress := 0, status := DownloadStatus.Idle } with
        | Except.error e => Except.error e
        | Except.ok (item, s) =>
          Except.ok (DownloadActionResponse.new item, { w with store := s })

/-- Synchronous part of manager.rs start: gate on Idle; when effective, report the record
transitioned to InProgress and hand the (original, started) pair to the spawned task;
otherwise return the current record annotated with the expected status. -/
def start (w : World) (path : String) :
    Except Error (DownloadActionResponse × Option (DownloadItem × DownloadItem)) :=
  match validatePath path with
  | Except.error e => Except.error e
  | Except.ok _ =>
    match DownloadStore.find_by_path w.store path with
    | none => Except.error (Error.NotFound path)
    | some item =>
      match item.status with
      | DownloadStatus.Idle =>
        Except.ok
          (DownloadActionResponse.new (item.with_status DownloadStatus.InProgress),
           some (item, item.with_status DownloadStatus.InProgress))
      | _ =>
        Except.ok
          (DownloadActionResponse.with_expected_status item DownloadStatus.InProgress,
           none)

/-- Synchronous part of manager.rs resume: same shape as start, gated on Paused. -/
def resume (w : World) (path : String) :
    Except Error (DownloadActionResponse × Option (DownloadItem × DownloadItem)) :=
  match validatePath path with
  | Except.error e => Except.error e
  | Except.ok _ =>
    match DownloadStore.find_by_path w.store path with
    | none => Except.error (Error.NotFound path)
    | some item =>
      match item.status with
      | DownloadStatus.Paused =>
        Except.ok
          (DownloadActionResponse.new (item.with_status DownloadStatus.InProgress),
           some (item, item.with_status DownloadStatus.InProgress))
      | _ =>
        Except.ok
          (DownloadActionResponse.with_expected_status item DownloadStatus.InProgress,
           none)

/-- Mirrors manager.rs pause: gate on InProgress; when effective, persist Paused and
emit it; otherwise a no-op annotated with the expected status. -/
def pause (w : World) (path : String) :
    Except Error (DownloadActionResponse × World) :=
  match validatePath path with
  | Except.error e => Except.error e
  | Except.ok _ =>
    match DownloadStore.find_by_path w.store path with
    | none => Except.error (Error.NotFound path)
    | some item =>
      match item.status with
      | DownloadStatus.InProgress =>
        Except.ok
          (DownloadActionResponse.new (item.with_status DownloadStatus.Paused),
           { w with
             store := DownloadStore.update w.store (item.with_status DownloadStatus.Paused),
             events := w.events ++ [item.with_status DownloadStatus.Paused] })
      | _ =>
        Except.ok
          (DownloadActionResponse.with_expected_status item DownloadStatus.Paused, w)

/-- Mirrors manager.rs cancel: gate on Idle, InProgress or Paused; when effective, delete
the record, best-effort remove the temp file (rmOk tells whether the OS removal
succeeded; failure is ignored) and emit Cancelled; otherwise a no-op annotated with the
expected status. -/
def cancel (rmOk : Bool) (w : World) (path : String) :
    Except Error (DownloadActionResponse × World) :=
  match validatePath path with
  | Except.error e => Except.error e
  | Except.ok _ =>
    match DownloadStore.find_by_path w.store path with
    | none => Except.error (Error.NotFound path)
    | some item =>
      match item.status with
      | DownloadStatus.Idle | DownloadStatus.InProgress | DownloadStatus.Paused =>
        Except.ok
          (DownloadActionResponse.new (item.with_status DownloadStatus.Cancelled),
           { w with
             store := DownloadStore.delete w.store item.path,
             files := if rmOk then removeFile w.files (tempPath item.path) else w.files,
             events := w.events ++ [item.with_status DownloadStatus.Cancelled] })
      | _ =>
        Except.ok
          (DownloadActionResponse.with_expected_status item DownloadStatus.Cancelled, w)

/-- The async block manager.rs spawns in start/resume: run the download; on error, issue
a store update with the original (pre-download) record and emit it. -/
def spawnedTask (cfg : DownloadConfig) (w : World) (original started : DownloadItem) :
    TaskOutcome :=
  let r := downloader.download cfg w started
  match r.res with
  | Except.ok _ => { world := r.world, result := Except.ok (), ops := r.ops }
  | Except.error e =>
    { world := { r.world with
        store := DownloadStore.update r.world.store original,
        events := r.world.events ++ [original] },
      result := Except.error e,
      ops := r.ops ++ [StoreOp.update original] }

/-- A start call together with its spawned downloader task run to completion under the
given environment behavior. -/
def startAndRun (cfg : DownloadConfig) (w : World) (path : String) :
    Except Error RunOutcome :=
  match start w path with
  | Except.error e => Except.error e
  | Except.ok (resp, none) =>
    Except.ok { resp := resp, world := w, taskResult := Except.ok (), ops := [] }
  | Except.ok (resp, some (original, started)) =>
    let t := spawnedTask cfg w original started
    Except.ok { resp := resp, world := t.world, taskResult := t.result, ops := t.ops }

/-- A resume call together with its spawned downloader task run to completion under the
given environment behavior. -/
def resumeAndRun (cfg : DownloadConfig) (w : World) (path : String) :
    Except Error RunOutcome :=
  match resume w path with
  | Except.error e => Except.error e
  | Except.ok (resp, none) =>
    Except.ok { resp := resp, world := w, taskResult := Except.ok (), ops := [] }
  | Except.ok (resp, some (original, started)) =>
    let t := spawnedTask cfg w original started
    Except.ok { resp := resp, world := t.world, taskResult := t.result, ops := t.ops }

end DownloadManager

/-- A status the Store may durably hold, per the spec's Store invariant. -/
def DownloadStatus.persistable (s : DownloadStatus) : Prop :=
  s = DownloadStatus.Idle ∨ s = DownloadStatus.InProgress ∨ s = DownloadStatus.Paused

instance (s : DownloadStatus) : Decidable s.persistable := by
  unfold DownloadStatus.persistable
  infer_instance

/-- Store invariant: every record holds a persistable status. -/
def storeInv (s : Store) : Prop :=
  ∀ i ∈ s, i.status.persistable

instance (s : Store) : Decidable (storeInv s) := by
  unfold storeInv
  infer_instance

/-- Path uniqueness of the Store: no two records share a path. -/
def pathsNodup (s : Store) : Prop :=
  (s.map DownloadItem.path).Nodup

instance (s : Store) : Decidable (pathsNodup s) := by
  unfold pathsNodup
  infer_instance

/-- A store operation preserves the Store status invariant on any store it is applied
to. -/
def opPreserves (op : StoreOp) : Prop :=
  ∀ s, storeInv s → storeInv (applyStoreOp s op)

namespace DownloadStore

theorem find_by_path_eq_path {s : Store} {path : String} {item : DownloadItem}
    (h : find_by_path s path = some item) : item.path = path := by
  induction s with
  | nil => simp [find_by_path] at h
  | cons i rest ih =>
    by_cases hp : i.path = path
    · simp [find_by_path, hp] at h
      rw [← h]
      exact hp
    · simp [find_by_path, hp] at h
      exact ih h

theorem find_by_path_update_self (s : Store) (item : DownloadItem) :
    find_by_path (update s item) item.path
      = (find_by_path s item.path).map (fun _ => item) := by
  induction s with
  | nil => simp [find_by_path, update]
  | cons i rest ih =>
    by_cases hp : i.path = item.path
    · simp [update, find_by_path, hp]
    · simp [update, find_by_path, hp, ih]

theorem find_by_path_delete_self (s : Store) (path : String) :
    find_by_path (delete s path) path = none := by
  induction s with
  | nil => simp [find_by_path, delete]
  | cons i rest ih =>
    by_cases hp : i.path = path
    · simp [delete, hp, ih]
    · simp [delete, find_by_path, hp, ih]

theorem find_by_path_none_iff {s : Store} {path : String} :
    find_by_path s path = none ↔ ∀ i ∈ s, i.path ≠ path := by
  induction s with
  | nil => simp [find_by_path]
  | cons i rest ih =>
    by_cases hp : i.path = path
    · simp [find_by_path, hp]
    · simp [find_by_path, hp, ih]

theorem storeInv_update {s : Store} {item : DownloadItem}
    (hs : storeInv s) (hi : item.status.persistable) : storeInv (update s item) := by
  induction s with
  | nil => simpa [update] using hs
  | cons i rest ih =>
    have hrest : storeInv rest := fun j hj => hs j (List.mem_cons_of_mem i hj)
    have hhead : i.status.persistable := hs i (List.mem_cons_self i rest)
    by_cases hp : i.path = item.path
    · intro j hj
      simp [update, hp] at hj
      rcases hj with hj | hj
      · rw [hj]; exact hi
      · exact hrest j hj
    · intro j hj
      simp [update, hp] at hj
      rcases hj with hj | hj
      · rw [hj]; exact hhead
      · exact ih hrest j hj

theorem storeInv_delete {s : Store} {path : String}
    (hs : storeInv s) : storeInv (delete s path) := by
  induction s with
  | nil => simpa [delete] using hs
  | cons i rest ih =>
    have hrest : storeInv rest := fun j hj => hs j (List.mem_cons_of_mem i hj)
    have hhead : i.status.persistable := hs i (List.mem_cons_self i rest)
    by_cases hp : i.path = path
    · simpa [delete, hp] using ih hrest
    · intro j hj
      simp [delete, hp] at hj
      rcases hj with hj | hj
      · rw [hj]; exact hhead
      · exact ih hrest j hj

theorem update_cons_of_ne {i item : DownloadItem} {rest : Store}
    (h : i.path ≠ item.path) :
    update (i :: rest) item = i :: update rest item := by
  simp [update, h]

end DownloadStore

theorem opPreserves_get (path : String) : opPreserves (StoreOp.get path) :=
  fun _ hs => hs

theorem opPreserves_delete (path : String) : opPreserves (StoreOp.delete path) :=
  fun _ hs => DownloadStore.storeInv_delete hs

theorem opPreserves_update_of_persistable {item : DownloadItem}
    (hi : item.status.persistable) : opPreserves (StoreOp.update item) :=
  fun _ hs => DownloadStore.storeInv_update hs hi

theorem chunkStep_ops_preserve (item : DownloadItem) (total len : Nat) (st : LoopSt) :
    ∀ op ∈ (downloader.chunkStep item total len st).ops, opPreserves op := by
  intro op hop
  simp only [downloader.chunkStep] at hop
  split at hop
  · simp at hop
  · split at hop
    · split at hop
      · split at hop
        · simp at hop
          rcases hop with hop | hop
          · rw [hop]; exact opPreserves_get _
          · rw [hop]
            exact opPreserves_update_of_persistable (Or.inr (Or.inl rfl))
        · split at hop
          · simp at hop
            rcases hop with hop | hop
            · rw [hop]; exact opPreserves_get _
            · rw [hop]; exact opPreserves_delete _
          · simp at hop
            rw [hop]; exact opPreserves_get _
      · simp at hop
        rw [hop]; exact opPreserves_get _
      · simp at hop
        rw [hop]; exact opPreserves_get _
    · simp at hop
      rw [hop]; exact opPreserves_get _

theorem downloadLoop_ops_preserve (item : DownloadItem) (total : Nat) :
    ∀ (chunks : List (Except String Nat)) (inters : List (List StoreOp)) (st : LoopSt),
      ∀ op ∈ (downloader.downloadLoop item total chunks inters st).ops, opPreserves op := by
  intro chunks
  induction chunks with
  | nil =>
    intro inters st op hop
    simp [downloader.downloadLoop] at hop
  | cons c cs ih =>
    intro inters st op hop
    match c with
    | Except.error e =>
      simp [downloader.downloadLoop] at hop
      rw [hop]; exact opPreserves_delete _
    | Except.ok len =>
      simp only [downloader.downloadLoop] at hop
      split at hop
      · simp at hop
        exact chunkStep_ops_preserve item total len _ op hop
      · simp at hop
        rcases hop with hop | hop
        · exact chunkStep_ops_preserve item total len _ op hop
        · exact ih inters.tail _ op hop

theorem download_ops_preserve (cfg : DownloadConfig) (w : World) (item : DownloadItem) :
    ∀ op ∈ (downloader.download cfg w item).ops, opPreserves op := by
  intro op hop
  simp only [downloader.download] at hop
  split at hop
  · simp at hop
  · split at hop
    · simp at hop
    · simp at hop
      rcases hop with hop | hop
      · rw [hop]
        exact opPreserves_update_of_persistable (Or.inr (Or.inl rfl))
      · exact downloadLoop_ops_preserve item _ _ _ _ op hop

theorem downloadLoop_error_chunk (item : DownloadItem) (total : Nat) :
    ∀ (chunks : List (Except String Nat)) (inters : List (List StoreOp)) (st : LoopSt)
      (err : Error),
      (downloader.downloadLoop item total chunks inters st).res = Except.error err →
      ∃ s, Except.error s ∈ chunks := by
  intro chunks
  induction chunks with
  | nil =>
    intro inters st err h
    simp [downloader.downloadLoop] at h
  | cons c cs ih =>
    intro inters st err h
    match c with
    | Except.error e => exact ⟨e, List.mem_cons_self _ _⟩
    | Except.ok len =>
      simp only [downloader.downloadLoop] at h
      split at h
      · simp at h
      · obtain ⟨s, hs⟩ := ih inters.tail _ err h
        exact ⟨s, List.mem_cons_of_mem _ hs⟩

/-- Total number of bytes delivered by the successfully received chunks. -/
def sumOk : List (Except String Nat) → Nat
  | [] => 0
  | Except.ok k :: cs => k + sumOk cs
  | Except.error _ :: cs => sumOk cs

theorem fileSize_appendFile (fs : FileSys) (p : String) (n : Nat) :
    fileSize (appendFile fs p n) p = fileSize fs p + n := by
  induction fs with
  | nil => simp [appendFile, fileSize]
  | cons e rest ih =>
    obtain ⟨q, m⟩ := e
    by_cases hq : q = p
    · simp [appendFile, fileSize, hq]
    · simp [appendFile, fileSize, hq, ih]

theorem fileSize_eq_zero_of_absent {fs : FileSys} {p : String}
    (h : fs.any (fun e => decide (e.1 = p)) = false) : fileSize fs p = 0 := by
  induction fs with
  | nil => simp [fileSize]
  | cons e rest ih =>
    obtain ⟨q, m⟩ := e
    simp only [List.any_cons, Bool.or_eq_false_iff] at h
    have hq : ¬ q = p := by simpa using h.1
    simp [fileSize, hq, ih h.2]

theorem fileSize_ensureFile (fs : FileSys) (p : String) :
    fileSize (ensureFile fs p) p = fileSize fs p := by
  unfold ensureFile
  cases ha : fs.any (fun e => decide (e.1 = p)) with
  | true => rfl
  | false => simp [fileSize, fileSize_eq_zero_of_absent ha]

theorem chunkStep_total_zero (item : DownloadItem) (len : Nat) (st : LoopSt)
    (hlast : st.last = 0) :
    downloader.chunkStep item 0 len st =
      { st := { w := { st.w with files := appendFile st.w.files (tempPath item.path) len },
                downloaded := st.downloaded + len, last := st.last },
        exit := StepExit.cont, ops := [] } := by
  have hp : computeProgress 0 (st.downloaded + len) = 0 := by simp [computeProgress]
  simp only [downloader.chunkStep, hp, hlast]
  rw [if_pos]
  constructor
  · norm_num
  · norm_num [PROGRESS_THRESHOLD]

theorem downloadLoop_total_zero_files (item : DownloadItem) :
    ∀ (chunks : List (Except String Nat)) (inters : List (List StoreOp)) (st : LoopSt),
      (∀ c ∈ chunks, ∃ k, c = Except.ok k) → st.last = 0 →
      fileSize (downloader.downloadLoop item 0 chunks inters st).world.files
          (tempPath item.path)
        = fileSize st.w.files (tempPath item.path) + sumOk chunks := by
  intro chunks
  induction chunks with
  | nil =>
    intro inters st hok hlast
    simp [downloader.downloadLoop, sumOk]
  | cons c cs ih =>
    intro inters st hok hlast
    obtain ⟨k, hk⟩ := hok c (List.mem_cons_self _ _)
    subst hk
    simp only [downloader.downloadLoop]
    rw [chunkStep_total_zero item k
      { w := { store := applyMuts (inters.headD []) st.w.store,
               files := st.w.files, events := st.w.events },
        downloaded := st.downloaded, last := st.last } hlast]
    have h2 := ih inters.tail
      { w := { store := applyMuts (inters.headD []) st.w.store,
               files := appendFile st.w.files (tempPath item.path) k,
               events := st.w.events },
        downloaded := st.downloaded + k, last := st.last }
      (fun c hc => hok c (List.mem_cons_of_mem _ hc)) hlast
    dsimp only at h2 ⊢
    rw [h2, fileSize_appendFile]
    simp [sumOk]
    omega

theorem initFold_cons_ne :
    ∀ (todo : List DownloadItem) (y : DownloadItem) (s : Store),
      (∀ i ∈ todo, i.path ≠ y.path) →
      DownloadManager.initFold todo (y :: s) = y :: DownloadManager.initFold todo s := by
  intro todo
  induction todo with
  | nil => intro y s _; rfl
  | cons t ts ih =>
    intro y s h
    have hty : t.path ≠ y.path := h t (List.mem_cons_self _ _)
    simp only [DownloadManager.initFold, List.foldl_cons]
    rw [DownloadStore.update_cons_of_ne
      (show y.path ≠ (DownloadManager.initReconcile t).path from Ne.symm hty)]
    exact ih y (DownloadStore.update s (DownloadManager.initReconcile t))
      (fun i hi => h i (List.mem_cons_of_mem _ hi))

/-- Per-record description of what init does, phrased from the spec: an InProgress
record is demoted (Idle at progress exactly 0, Paused otherwise), every other record is
left unchanged. -/
def reconcileSpec (i : DownloadItem) : DownloadItem :=
  if i.status = DownloadStatus.InProgress then DownloadManager.initReconcile i else i

theorem initFold_filter (s : Store) (h : pathsNodup s) :
    DownloadManager.initFold (s.filter (fun i => decide (i.status = DownloadStatus.InProgress))) s
      = s.map reconcileSpec := by
  induction s with
  | nil => rfl
  | cons x s ih =>
    have hns := (List.nodup_cons.mp h)
    have hx : x.path ∉ s.map DownloadItem.path := hns.1
    have hs : pathsNodup s := hns.2
    have hmem : ∀ i ∈ s.filter (fun i => decide (i.status = DownloadStatus.InProgress)),
        i.path ≠ x.path := by
      intro i hi hcon
      exact hx (hcon ▸ List.mem_map_of_mem DownloadItem.path (List.mem_of_mem_filter hi))
    by_cases hxi : x.status = DownloadStatus.InProgress
    · rw [List.filter_cons_of_pos (by simpa using hxi)]
      simp only [DownloadManager.initFold, List.foldl_cons]
      have hupd : DownloadStore.update (x :: s) (DownloadManager.initReconcile x) = DownloadManager.initReconcile x :: s := by
        simp [DownloadStore.update, DownloadManager.initReconcile, DownloadItem.with_status]
      rw [hupd]
      have hcons := initFold_cons_ne
        (s.filter (fun i => decide (i.status = DownloadStatus.InProgress)))
        (DownloadManager.initReconcile x) s (by simpa [DownloadManager.initReconcile, DownloadItem.with_status] using hmem)
      simp only [DownloadManager.initFold] at hcons ih ⊢
      rw [hcons, ih hs]
      simp [reconcileSpec, hxi]
    · rw [List.filter_cons_of_neg (by simpa using hxi)]
      have hcons := initFold_cons_ne
        (s.filter (fun i => decide (i.status = DownloadStatus.InProgress))) x s hmem
      simp only [DownloadManager.initFold] at hcons ih ⊢
      rw [hcons, ih hs]
      simp [reconcileSpec, hxi]

theorem any_path_eq_false {s : Store} {p : String}
    (h : DownloadStore.find_by_path s p = none) :
    s.any (fun i => decide (i.path = p)) = false := by
  rw [List.any_eq_false]
  intro i hi
  simpa using DownloadStore.find_by_path_none_iff.mp h i hi

theorem find_by_path_append_self {s : Store} {item : DownloadItem}
    (h : DownloadStore.find_by_path s item.path = none) :
    DownloadStore.find_by_path (s ++ [item]) item.path = some item := by
  induction s with
  | nil => simp [DownloadStore.find_by_path]
  | cons i rest ih =>
    by_cases hp : i.path = item.path
    · simp [DownloadStore.find_by_path, hp] at h
    · simp only [DownloadStore.find_by_path, List.cons_append] at h ⊢
      rw [if_neg hp] at h ⊢
      exact ih h

theorem pathsNodup_append {s : Store} {item : DownloadItem}
    (hnd : pathsNodup s) (h : DownloadStore.find_by_path s item.path = none) :
    pathsNodup (s ++ [item]) := by
  unfold pathsNodup at hnd ⊢
  rw [List.map_append, List.nodup_append]
  refine ⟨hnd, List.nodup_singleton _, ?_⟩
  intro a ha hb
  simp only [List.map_cons, List.map_nil, List.mem_singleton] at hb
  obtain ⟨i, hi, hai⟩ := List.mem_map.mp ha
  exact DownloadStore.find_by_path_none_iff.mp h i hi (hai.symm ▸ hb ▸ rfl)

/-- Shared sample url for concrete scenarios. -/
def exUrl : String := "https://example.com/f.bin"

/-- C6: For every persisted record set, init reconciles exactly the records whose status
is InProgress: each such record with progress exactly 0 is updated in the Store to status
Idle, each such record with any other progress is updated to Paused, and records in
every other status are left unchanged. (Stated for stores with unique paths, which is
how the Store is always populated; reconcileSpec is the per-record description.) -/
theorem C6_init_reconciliation (w : World) (h : pathsNodup w.store) :
    (DownloadManager.init w).store = w.store.map reconcileSpec ∧
    (DownloadManager.init w).files = w.files ∧
    (DownloadManager.init w).events = w.events := by
  refine ⟨?_, rfl, rfl⟩
  simp only [DownloadManager.init]
  exact initFold_filter w.store h

def c6store : Store :=
  [ { url := exUrl, path := "/a/x", progress := 0, status := DownloadStatus.InProgress },
    { url := exUrl, path := "/a/y", progress := 45, status := DownloadStatus.InProgress },
    { url := exUrl, path := "/a/z", progress := 10, status := DownloadStatus.Paused } ]

def c6world : World := { store := c6store, files := [], events := [] }

/-- C6 witness: init on a concrete store demotes an InProgress record at progress 0 to
Idle, one at progress 45 to Paused, and leaves a Paused record unchanged. -/
theorem C6_init_reconciliation_witness :
    pathsNodup c6world.store ∧
    (DownloadManager.init c6world).store = c6world.store.map reconcileSpec ∧
    c6world.store.map reconcileSpec =
      [ { url := exUrl, path := "/a/x", progress := 0, status := DownloadStatus.Idle },
        { url := exUrl, path := "/a/y", progress := 45, status := DownloadStatus.Paused },
        { url := exUrl, path := "/a/z", progress := 10, status := DownloadStatus.Paused } ] :=
  ⟨by decide, (C6_init_reconciliation c6world (by decide)).1, by decide⟩

/-- C7: whenever the resume offset (the partial file's size) is positive, the request was
sent successfully, and the response status is not 206 Partial Content, the downloader
fails with an Http error and leaves the world untouched: no store access, no file write,
and in particular no restart from offset zero. -/
theorem C7_range_contract (cfg : DownloadConfig) (w : World) (item : DownloadItem)
    (resp : HttpResponse) (hresp : cfg.response = Except.ok resp)
    (hoff : 0 < fileSize w.files (tempPath item.path)) (hst : resp.status ≠ 206) :
    downloader.download cfg w item =
      { res := Except.error (Error.Http ("Server does not support partial downloads")),
        world := w, ops := [] } := by
  simp only [downloader.download, hresp]
  rw [if_pos ⟨hoff, hst⟩]

def c7item : DownloadItem :=
  { url := exUrl, path := "/tmp/r.bin", progress := 40, status := DownloadStatus.InProgress }

def c7world : World :=
  { store := [{ url := exUrl, path := "/tmp/r.bin", progress := 40,
                status := DownloadStatus.Paused }],
    files := [("/tmp/r.bin.download", 40)], events := [] }

def c7resp : HttpResponse :=
  { status := 200, contentLength := some 60, chunks := [Except.ok 60] }

def c7cfg : DownloadConfig := { response := Except.ok c7resp, interleave := [] }

/-- C7 witness: a paused 100-byte download resumed at offset 40 against a server that
answers 200 instead of 206 fails with the Http error and changes nothing. -/
theorem C7_range_contract_witness :
    c7cfg.response = Except.ok c7resp ∧
    0 < fileSize c7world.files (tempPath c7item.path) ∧
    c7resp.status ≠ 206 ∧
    downloader.download c7cfg c7world c7item =
      { res := Except.error (Error.Http ("Server does not support partial downloads")),
        world := c7world, ops := [] } :=
  ⟨rfl, by decide, by decide,
    C7_range_contract c7cfg c7world c7item c7resp rfl (by decide) (by decide)⟩

/-- C8: cancel on a record in Idle, InProgress or Paused deletes the record from the
Store, best-effort removes the partial file (an OS removal failure changes nothing and
is non-fatal: the call still succeeds), and emits a notification with status Cancelled;
a subsequent get for the same path then returns the synthetic, non-persisted Pending
record. -/
theorem C8_cancel_removes_record (rmOk : Bool) (w : World) (path : String)
    (item : DownloadItem)
    (hv : validatePath path = Except.ok ())
    (hf : DownloadStore.find_by_path w.store path = some item)
    (hs : item.status.persistable) :
    DownloadManager.cancel rmOk w path = Except.ok
      (DownloadActionResponse.new (item.with_status DownloadStatus.Cancelled),
       { store := DownloadStore.delete w.store item.path,
         files := if rmOk then removeFile w.files (tempPath item.path) else w.files,
         events := w.events ++ [item.with_status DownloadStatus.Cancelled] }) ∧
    DownloadManager.get
      { store := DownloadStore.delete w.store item.path,
        files := if rmOk then removeFile w.files (tempPath item.path) else w.files,
        events := w.events ++ [item.with_status DownloadStatus.Cancelled] } path
      = Except.ok
          { url := "", path := path, progress := 0, status := DownloadStatus.Pending } := by
  have hip : item.path = path := DownloadStore.find_by_path_eq_path hf
  constructor
  · rcases hs with h | h | h <;> simp [DownloadManager.cancel, hv, hf, h]
  · rw [hip]
    simp [DownloadManager.get, hv, DownloadStore.find_by_path_delete_self]

def c8item : DownloadItem :=
  { url := exUrl, path := "/tmp/c.bin", progress := 40, status := DownloadStatus.Paused }

def c8world : World :=
  { store := [c8item],
    files := [("/tmp/c.bin.download", 40)], events := [] }

/-- C8 witness: cancelling a concrete Paused record deletes it, removes the partial
file, emits Cancelled, and a following get returns the Pending synthetic record. -/
theorem C8_cancel_removes_record_witness :
    validatePath ("/tmp/c.bin") = Except.ok () ∧
    DownloadStore.find_by_path c8world.store "/tmp/c.bin" = some c8item ∧
    c8item.status.persistable ∧
    (DownloadManager.cancel true c8world "/tmp/c.bin" = Except.ok
      (DownloadActionResponse.new (c8item.with_status DownloadStatus.Cancelled),
       { store := DownloadStore.delete c8world.store c8item.path,
         files := if true then removeFile c8world.files (tempPath c8item.path)
                  else c8world.files,
         events := c8world.events ++ [c8item.with_status DownloadStatus.Cancelled] }) ∧
     DownloadManager.get
       { store := DownloadStore.delete c8world.store c8item.path,
         files := if true then removeFile c8world.files (tempPath c8item.path)
                  else c8world.files,
         events := c8world.events ++ [c8item.with_status DownloadStatus.Cancelled] }
       "/tmp/c.bin"
       = Except.ok
           { url := "", path := "/tmp/c.bin", progress := 0,
             status := DownloadStatus.Pending }) :=
  ⟨by decide, by decide, by decide,
    C8_cancel_removes_record true c8world "/tmp/c.bin" c8item
      (by decide) (by decide) (by decide)⟩

theorem store_create_of_absent {s : Store} {path url : String}
    (h : DownloadStore.find_by_path s path = none) :
    DownloadStore.create s
        { url := url, path := path, progress := 0, status := DownloadStatus.Idle }
      = Except.ok
          ({ url := url, path := path, progress := 0, status := DownloadStatus.Idle },
           s ++ [{ url := url, path := path, progress := 0,
                   status := DownloadStatus.Idle }]) := by
  simp only [DownloadStore.create]
  rw [if_neg]
  simp [any_path_eq_false h]

/-- C9: for a valid path and url, create is idempotent-safe: given a first call that
returned (r1, w1), the resulting store has no duplicate paths, holds r1's record under
the path, and a second create for the same path returns that existing record unchanged
(annotated with expected status Idle and the match flag) without touching the store;
moreover when a record already existed, the first call returned it unchanged too. -/
theorem C9_create_idempotent (w : World) (path url : String)
    (r1 : DownloadActionResponse) (w1 : World)
    (hvp : validatePath path = Except.ok ()) (hvu : validateUrl url = Except.ok ())
    (hnd : pathsNodup w.store)
    (hc : DownloadManager.create w path url = Except.ok (r1, w1)) :
    pathsNodup w1.store ∧
    DownloadStore.find_by_path w1.store path = some r1.download ∧
    DownloadManager.create w1 path url = Except.ok
      (DownloadActionResponse.with_expected_status r1.download DownloadStatus.Idle, w1) ∧
    (∀ ex, DownloadStore.find_by_path w.store path = some ex →
      r1.download = ex ∧ w1 = w) := by
  simp only [DownloadManager.create, hvp, hvu] at hc
  cases hf : DownloadStore.find_by_path w.store path with
  | some existing =>
    rw [hf] at hc
    simp only [Except.ok.injEq, Prod.mk.injEq] at hc
    obtain ⟨h1, h2⟩ := hc
    subst h1
    subst h2
    refine ⟨hnd, ?_, ?_, ?_⟩
    · rw [hf]
      rfl
    · simp only [DownloadManager.create, hvp, hvu, hf]
      rfl
    · intro ex hex
      have hee : existing = ex := Option.some.inj hex
      subst hee
      exact ⟨rfl, rfl⟩
  | none =>
    rw [hf] at hc
    rw [store_create_of_absent hf] at hc
    simp only [Except.ok.injEq, Prod.mk.injEq] at hc
    obtain ⟨h1, h2⟩ := hc
    subst h1
    subst h2
    have hfind := @find_by_path_append_self w.store
      ⟨url, path, 0, DownloadStatus.Idle⟩ hf
    refine ⟨?_, ?_, ?_, ?_⟩
    · exact pathsNodup_append hnd hf
    · exact hfind
    · simp only [DownloadManager.create, hvp, hvu]
      rw [hfind]
      rfl
    · intro ex hex
      cases hex

def c9world : World := { store := [], files := [], events := [] }

def c9new : DownloadItem :=
  { url := exUrl, path := "/tmp/k.bin", progress := 0, status := DownloadStatus.Idle }

/-- C9 witness: creating the same path twice on a concrete empty store returns the same
Idle record both times and leaves exactly one record in the store. -/
theorem C9_create_idempotent_witness :
    validatePath ("/tmp/k.bin") = Except.ok () ∧
    validateUrl exUrl = Except.ok () ∧
    pathsNodup c9world.store ∧
    DownloadManager.create c9world "/tmp/k.bin" exUrl =
      Except.ok (DownloadActionResponse.new c9new,
        { store := [c9new], files := [], events := [] }) ∧
    (pathsNodup ({ store := [c9new], files := [], events := [] } : World).store ∧
     DownloadStore.find_by_path
         ({ store := [c9new], files := [], events := [] } : World).store "/tmp/k.bin"
       = some (DownloadActionResponse.new c9new).download ∧
     DownloadManager.create { store := [c9new], files := [], events := [] }
         "/tmp/k.bin" exUrl = Except.ok
       (DownloadActionResponse.with_expected_status
         (DownloadActionResponse.new c9new).download DownloadStatus.Idle,
        { store := [c9new], files := [], events := [] }) ∧
     (∀ ex, DownloadStore.find_by_path c9world.store "/tmp/k.bin" = some ex →
       (DownloadActionResponse.new c9new).download = ex ∧
       ({ store := [c9new], files := [], events := [] } : World) = c9world)) :=
  ⟨by decide, by decide, by decide, by decide,
    C9_create_idempotent c9world "/tmp/k.bin" exUrl (DownloadActionResponse.new c9new)
      { store := [c9new], files := [], events := [] }
      (by decide) (by decide) (by decide) (by decide)⟩

def c2item : DownloadItem :=
  { url := exUrl, path := "/tmp/g.bin", progress := 5, status := DownloadStatus.InProgress }

def c2world : World := { store := [c2item], files := [], events := [] }

/-- C2 counterexample: start called while the record is already InProgress is a no-op
(nothing is spawned, the world is untouched), yet the returned boolean is true — the
claim says the boolean is false for every no-op call. -/
theorem C2_counterexample :
    DownloadManager.start c2world "/tmp/g.bin" =
      Except.ok
        ({ download := c2item, expected_status := DownloadStatus.InProgress,
           is_expected_status := true }, none) := by
  decide

/-- C2 amended: for every gated operation (start, resume, pause, cancel) that returns a
response, the boolean equals whether the returned record's status is the expected
status; a call whose gate is not satisfied changes nothing (start/resume spawn nothing,
pause/cancel leave the world untouched) and returns the current record annotated with
the operation's expected status — so a no-op call reports true exactly when the
record's current status already equals the expected one. -/
theorem C2_response_flag :
    (∀ w path resp sp,
      DownloadManager.start w path = Except.ok (resp, sp) →
        resp.is_expected_status = decide (resp.download.status = resp.expected_status) ∧
        (∀ item, DownloadStore.find_by_path w.store path = some item →
          item.status ≠ DownloadStatus.Idle →
            resp = DownloadActionResponse.with_expected_status item
              DownloadStatus.InProgress ∧ sp = none)) ∧
    (∀ w path resp sp,
      DownloadManager.resume w path = Except.ok (resp, sp) →
        resp.is_expected_status = decide (resp.download.status = resp.expected_status) ∧
        (∀ item, DownloadStore.find_by_path w.store path = some item →
          item.status ≠ DownloadStatus.Paused →
            resp = DownloadActionResponse.with_expected_status item
              DownloadStatus.InProgress ∧ sp = none)) ∧
    (∀ w path resp w2,
      DownloadManager.pause w path = Except.ok (resp, w2) →
        resp.is_expected_status = decide (resp.download.status = resp.expected_status) ∧
        (∀ item, DownloadStore.find_by_path w.store path = some item →
          item.status ≠ DownloadStatus.InProgress →
            resp = DownloadActionResponse.with_expected_status item
              DownloadStatus.Paused ∧ w2 = w)) ∧
    (∀ rmOk w path resp w2,
      DownloadManager.cancel rmOk w path = Except.ok (resp, w2) →
        resp.is_expected_status = decide (resp.download.status = resp.expected_status) ∧
        (∀ item, DownloadStore.find_by_path w.store path = some item →
          ¬ item.status.persistable →
            resp = DownloadActionResponse.with_expected_status item
              DownloadStatus.Cancelled ∧ w2 = w)) := by
  refine ⟨?_, ?_, ?_, ?_⟩
  · intro w path resp sp h
    simp only [DownloadManager.start] at h
    cases hv : validatePath path with
    | error e =>
      rw [hv] at h
      exact Except.noConfusion h
    | ok u =>
      cases u
      cases hf : DownloadStore.find_by_path w.store path with
      | none =>
        simp only [hv, hf] at h
        exact Except.noConfusion h
      | some item =>
        simp only [hv, hf] at h
        cases hst : item.status <;>
          simp only [hst, Except.ok.injEq, Prod.mk.injEq] at h <;>
          obtain ⟨h1, h2⟩ := h <;> subst h1 <;> subst h2 <;>
          refine ⟨by simp [DownloadActionResponse.new,
            DownloadActionResponse.with_expected_status, DownloadItem.with_status], ?_⟩ <;>
          intro item2 hf2 hne <;>
          cases hf2 <;>
          first
            | exact absurd hst hne
            | exact absurd (Or.inl hst) hne
            | exact absurd (Or.inr (Or.inl hst)) hne
            | exact absurd (Or.inr (Or.inr hst)) hne
            | exact ⟨rfl, rfl⟩
  · intro w path resp sp h
    simp only [DownloadManager.resume] at h
    cases hv : validatePath path with
    | error e =>
      rw [hv] at h
      exact Except.noConfusion h
    | ok u =>
      cases u
      cases hf : DownloadStore.find_by_path w.store path with
      | none =>
        simp only [hv, hf] at h
        exact Except.noConfusion h
      | some item =>
        simp only [hv, hf] at h
        cases hst : item.status <;>
          simp only [hst, Except.ok.injEq, Prod.mk.injEq] at h <;>
          obtain ⟨h1, h2⟩ := h <;> subst h1 <;> subst h2 <;>
          refine ⟨by simp [DownloadActionResponse.new,
            DownloadActionResponse.with_expected_status, DownloadItem.with_status], ?_⟩ <;>
          intro item2 hf2 hne <;>
          cases hf2 <;>
          first
            | exact absurd hst hne
            | exact absurd (Or.inl hst) hne
            | exact absurd (Or.inr (Or.inl hst)) hne
            | exact absurd (Or.inr (Or.inr hst)) hne
            | exact ⟨rfl, rfl⟩
  · intro w path resp w2 h
    simp only [DownloadManager.pause] at h
    cases hv : validatePath path with
    | error e =>
      rw [hv] at h
      exact Except.noConfusion h
    | ok u =>
      cases u
      cases hf : DownloadStore.find_by_path w.store path with
      | none =>
        simp only [hv, hf] at h
        exact Except.noConfusion h
      | some item =>
        simp only [hv, hf] at h
        cases hst : item.status <;>
          simp only [hst, Except.ok.injEq, Prod.mk.injEq] at h <;>
          obtain ⟨h1, h2⟩ := h <;> subst h1 <;> subst h2 <;>
          refine ⟨by simp [DownloadActionResponse.new,
            DownloadActionResponse.with_expected_status, DownloadItem.with_status], ?_⟩ <;>
          intro item2 hf2 hne <;>
          cases hf2 <;>
          first
            | exact absurd hst hne
            | exact absurd (Or.inl hst) hne
            | exact absurd (Or.inr (Or.inl hst)) hne
            | exact absurd (Or.inr (Or.inr hst)) hne
            | exact ⟨rfl, rfl⟩
  · intro rmOk w path resp w2 h
    simp only [DownloadManager.cancel] at h
    cases hv : validatePath path with
    | error e =>
      rw [hv] at h
      exact Except.noConfusion h
    | ok u =>
      cases u
      cases hf : DownloadStore.find_by_path w.store path with
      | none =>
        simp only [hv, hf] at h
        exact Except.noConfusion h
      | some item =>
        simp only [hv, hf] at h
        cases hst : item.status <;>
          simp only [hst, Except.ok.injEq, Prod.mk.injEq] at h <;>
          obtain ⟨h1, h2⟩ := h <;> subst h1 <;> subst h2 <;>
          refine ⟨by simp [DownloadActionResponse.new,
            DownloadActionResponse.with_expected_status, DownloadItem.with_status], ?_⟩ <;>
          intro item2 hf2 hne <;>
          cases hf2 <;>
          first
            | exact absurd hst hne
            | exact absurd (Or.inl hst) hne
            | exact absurd (Or.inr (Or.inl hst)) hne
            | exact absurd (Or.inr (Or.inr hst)) hne
            | exact ⟨rfl, rfl⟩

def c2resp : DownloadActionResponse :=
  { download := c2item, expected_status := DownloadStatus.InProgress,
    is_expected_status := true }

/-- C2 witness: the amended statement instantiated at the concrete no-op start call on
an already-InProgress record. -/
theorem C2_response_flag_witness :
    DownloadManager.start c2world "/tmp/g.bin" = Except.ok (c2resp, none) ∧
    (c2resp.is_expected_status
        = decide (c2resp.download.status = c2resp.expected_status) ∧
     (∀ item, DownloadStore.find_by_path c2world.store "/tmp/g.bin" = some item →
       item.status ≠ DownloadStatus.Idle →
         c2resp = DownloadActionResponse.with_expected_status item
           DownloadStatus.InProgress ∧
         (none : Option (DownloadItem × DownloadItem)) = none)) :=
  ⟨by decide, C2_response_flag.1 c2world "/tmp/g.bin" c2resp none (by decide)⟩

def c1item : DownloadItem :=
  { url := exUrl, path := "/tmp/f.bin", progress := 0, status := DownloadStatus.Idle }

def c1started : DownloadItem := c1item.with_status DownloadStatus.InProgress

def c1world : World := { store := [c1item], files := [], events := [] }

def c1cfg : DownloadConfig :=
  { response := Except.ok
      { status := 200, contentLength := some 100,
        chunks := [Except.error ("connection reset")] },
    interleave := [] }

def c1run : Except Error RunOutcome :=
  DownloadManager.startAndRun c1cfg c1world "/tmp/f.bin"

/-- C1 counterexample: an Idle record started against a server whose stream errors on
the first chunk. The spawned task takes the stream-read error path (the Downloader
deletes the record), and after the Manager's rollback the record is still absent from
the Store — the pre-download record is NOT restored, because the Store update used for
the rollback is a silent no-op on a missing key. -/
theorem C1_counterexample :
    c1run.map (fun o => o.taskResult)
      = Except.ok (Except.error (Error.Http ("Failed to download: connection reset"))) ∧
    c1run.map (fun o => DownloadStore.find_by_path o.world.store "/tmp/f.bin")
      = Except.ok none := by
  decide

/-- C1 amended: when a spawned Downloader task (of start or resume) returns an error,
the Manager emits a change notification carrying the pre-download record and issues a
Store update with it; that update restores the record's original status and progress
exactly when a record for that path is still present after the download (e.g. the
pre-streaming Http failure on resume) — on the stream-read error path, where the
Downloader has already deleted the record, the update is a silent no-op and the record
remains absent. -/
theorem C1_rollback :
    (∀ cfg w original started e,
      (DownloadManager.spawnedTask cfg w original started).result = Except.error e →
        (DownloadManager.spawnedTask cfg w original started).world.events
          = (downloader.download cfg w started).world.events ++ [original] ∧
        DownloadStore.find_by_path
            (DownloadManager.spawnedTask cfg w original started).world.store original.path
          = (DownloadStore.find_by_path
              (downloader.download cfg w started).world.store original.path).map
              (fun _ => original)) ∧
    (∀ cfg w path item,
      validatePath path = Except.ok () →
      DownloadStore.find_by_path w.store path = some item →
      item.status = DownloadStatus.Idle →
      DownloadManager.startAndRun cfg w path = Except.ok
        { resp := DownloadActionResponse.new (item.with_status DownloadStatus.InProgress),
          world := (DownloadManager.spawnedTask cfg w item
            (item.with_status DownloadStatus.InProgress)).world,
          taskResult := (DownloadManager.spawnedTask cfg w item
            (item.with_status DownloadStatus.InProgress)).result,
          ops := (DownloadManager.spawnedTask cfg w item
            (item.with_status DownloadStatus.InProgress)).ops }) ∧
    (∀ cfg w path item,
      validatePath path = Except.ok () →
      DownloadStore.find_by_path w.store path = some item →
      item.status = DownloadStatus.Paused →
      DownloadManager.resumeAndRun cfg w path = Except.ok
        { resp := DownloadActionResponse.new (item.with_status DownloadStatus.InProgress),
          world := (DownloadManager.spawnedTask cfg w item
            (item.with_status DownloadStatus.InProgress)).world,
          taskResult := (DownloadManager.spawnedTask cfg w item
            (item.with_status DownloadStatus.InProgress)).result,
          ops := (DownloadManager.spawnedTask cfg w item
            (item.with_status DownloadStatus.InProgress)).ops }) := by
  refine ⟨?_, ?_, ?_⟩
  · intro cfg w original started e h
    simp only [DownloadManager.spawnedTask] at h ⊢
    cases hres : (downloader.download cfg w started).res with
    | ok u =>
      simp only [hres] at h
      exact Except.noConfusion h
    | error e2 =>
      simp only [hres]
      constructor
      · trivial
      · exact DownloadStore.find_by_path_update_self _ original
  · intro cfg w path item hv hf hst
    simp only [DownloadManager.startAndRun, DownloadManager.start, hv, hf, hst]
  · intro cfg w path item hv hf hst
    simp only [DownloadManager.resumeAndRun, DownloadManager.resume, hv, hf, hst]

/-- C1 witness: the amended rollback statement at the concrete stream-error scenario
(the emitted notification carries the pre-download Idle record; the record stays absent
since the Downloader had deleted it). -/
theorem C1_rollback_witness :
    (DownloadManager.spawnedTask c1cfg c1world c1item c1started).result
      = Except.error (Error.Http ("Failed to download: connection reset")) ∧
    ((DownloadManager.spawnedTask c1cfg c1world c1item c1started).world.events
      = (downloader.download c1cfg c1world c1started).world.events ++ [c1item] ∧
     DownloadStore.find_by_path
         (DownloadManager.spawnedTask c1cfg c1world c1item c1started).world.store
         c1item.path
       = (DownloadStore.find_by_path
           (downloader.download c1cfg c1world c1started).world.store c1item.path).map
           (fun _ => c1item)) :=
  ⟨by decide,
    C1_rollback.1 c1cfg c1world c1item c1started
      (Error.Http ("Failed to download: connection reset")) (by decide)⟩

theorem chunkStep_act_ops (item : DownloadItem) (total len : Nat) (st : LoopSt)
    (hc : ¬ (computeProgress total (st.downloaded + len) < 100 ∧
      computeProgress total (st.downloaded + len) - st.last ≤ PROGRESS_THRESHOLD)) :
    (downloader.chunkStep item total len st).ops.head? = some (StoreOp.get item.path) ∧
    (downloader.chunkStep item total len st).ops ≠ [] := by
  simp only [downloader.chunkStep]
  rw [if_neg hc]
  split
  · split
    · split
      · exact ⟨rfl, by simp⟩
      · split
        · exact ⟨rfl, by simp⟩
        · exact ⟨rfl, by simp⟩
    · exact ⟨rfl, by simp⟩
    · exact ⟨rfl, by simp⟩
  · exact ⟨rfl, by simp⟩

theorem chunkStep_skip (item : DownloadItem) (total len : Nat) (st : LoopSt)
    (h1 : computeProgress total (st.downloaded + len) < 100)
    (h2 : computeProgress total (st.downloaded + len) - st.last ≤ PROGRESS_THRESHOLD) :
    downloader.chunkStep item total len st =
      { st := { w := { store := st.w.store,
                       files := appendFile st.w.files (tempPath item.path) len,
                       events := st.w.events },
                downloaded := st.downloaded + len, last := st.last },
        exit := StepExit.cont, ops := [] } := by
  simp only [downloader.chunkStep]
  rw [if_pos ⟨h1, h2⟩]

def c3item : DownloadItem :=
  { url := exUrl, path := "/tmp/h.bin", progress := 0, status := DownloadStatus.InProgress }

def c3st : LoopSt :=
  { w := { store := [c3item], files := [], events := [] }, downloaded := 0, last := 0 }

/-- C3 counterexample: with total 100, one 1-byte chunk from offset 0 yields a computed
progress of exactly 1.0, an increase of exactly 1.0 percentage points over the last
acted-upon sample (0.0) — "at least 1.0" in the claim's words — yet the loop performs no
store access: the source skips whenever the increase is less than OR EQUAL to the
threshold. -/
theorem C3_counterexample :
    computeProgress 100 (c3st.downloaded + 1) - c3st.last = 1 ∧
    computeProgress 100 (c3st.downloaded + 1) < 100 ∧
    (downloader.chunkStep c3item 100 1 c3st).ops = [] := by
  have h2 : computeProgress 100 (c3st.downloaded + 1) - c3st.last = 1 := by
    norm_num [computeProgress, c3st]
  have h1 : computeProgress 100 (c3st.downloaded + 1) < 100 := by
    norm_num [computeProgress, c3st]
  refine ⟨h2, h1, ?_⟩
  rw [chunkStep_skip c3item 100 1 c3st h1
    (by rw [h2]; norm_num [PROGRESS_THRESHOLD])]

/-- C3 amended: the loop acts on a progress sample (its first store access being the
re-read of the live record) if and only if the computed progress has increased by
STRICTLY MORE than 1.0 percentage points since the last acted-upon sample or has
reached 100%; below or at the threshold it keeps streaming, only appending the chunk to
the partial file, with no store access and no event. -/
theorem C3_emission_throttle (item : DownloadItem) (total len : Nat) (st : LoopSt) :
    ((downloader.chunkStep item total len st).ops ≠ [] ↔
      (100 ≤ computeProgress total (st.downloaded + len) ∨
       PROGRESS_THRESHOLD < computeProgress total (st.downloaded + len) - st.last)) ∧
    ((downloader.chunkStep item total len st).ops ≠ [] →
      (downloader.chunkStep item total len st).ops.head? = some (StoreOp.get item.path)) ∧
    (computeProgress total (st.downloaded + len) < 100 →
     computeProgress total (st.downloaded + len) - st.last ≤ PROGRESS_THRESHOLD →
      downloader.chunkStep item total len st =
        { st := { w := { store := st.w.store,
                         files := appendFile st.w.files (tempPath item.path) len,
                         events := st.w.events },
                  downloaded := st.downloaded + len, last := st.last },
          exit := StepExit.cont, ops := [] }) := by
  have hiff : ¬ (computeProgress total (st.downloaded + len) < 100 ∧
      computeProgress total (st.downloaded + len) - st.last ≤ PROGRESS_THRESHOLD) ↔
      (100 ≤ computeProgress total (st.downloaded + len) ∨
       PROGRESS_THRESHOLD < computeProgress total (st.downloaded + len) - st.last) := by
    rw [not_and_or, not_lt, not_le]
  by_cases hc : computeProgress total (st.downloaded + len) < 100 ∧
      computeProgress total (st.downloaded + len) - st.last ≤ PROGRESS_THRESHOLD
  · have hstep := chunkStep_skip item total len st hc.1 hc.2
    refine ⟨?_, ?_, fun _ _ => hstep⟩
    · rw [hstep]
      constructor
      · intro hne
        exact absurd rfl hne
      · intro hR
        exact absurd hc (hiff.mpr hR)
    · intro hne
      rw [hstep] at hne
      exact absurd rfl hne
  · obtain ⟨hhead, hne⟩ := chunkStep_act_ops item total len st hc
    exact ⟨iff_of_true hne (hiff.mp hc), fun _ => hhead, fun hx hy => absurd ⟨hx, hy⟩ hc⟩

/-- C3 witness: the amended throttle statement at a concrete below-threshold sample
(exact 1.0 increase, below 100%): the step only appends to the file and keeps
streaming. -/
theorem C3_emission_throttle_witness :
    computeProgress 100 (c3st.downloaded + 1) < 100 ∧
    computeProgress 100 (c3st.downloaded + 1) - c3st.last ≤ PROGRESS_THRESHOLD ∧
    downloader.chunkStep c3item 100 1 c3st =
      { st := { w := { store := c3st.w.store,
                       files := appendFile c3st.w.files (tempPath c3item.path) 1,
                       events := c3st.w.events },
                downloaded := c3st.downloaded + 1, last := c3st.last },
        exit := StepExit.cont, ops := [] } := by
  have h1 : computeProgress 100 (c3st.downloaded + 1) < 100 := by
    norm_num [computeProgress, c3st]
  have h2 : computeProgress 100 (c3st.downloaded + 1) - c3st.last ≤ PROGRESS_THRESHOLD := by
    norm_num [computeProgress, c3st, PROGRESS_THRESHOLD]
  exact ⟨h1, h2, (C3_emission_throttle c3item 100 1 c3st).2.2 h1 h2⟩

/-- C4: a progress sample whose computed value is 100% or more is never skipped by the
emission throttle: regardless of the last emitted value, the step acts on it and its
first store access is the re-read of the live record. -/
theorem C4_completion_always_flushes (item : DownloadItem) (total len : Nat)
    (st : LoopSt) (h : 100 ≤ computeProgress total (st.downloaded + len)) :
    (downloader.chunkStep item total len st).ops.head? = some (StoreOp.get item.path) ∧
    (downloader.chunkStep item total len st).ops ≠ [] :=
  chunkStep_act_ops item total len st (fun hcc => absurd h (not_le.mpr hcc.1))

def c4item : DownloadItem :=
  { url := exUrl, path := "/tmp/q.bin", progress := 99, status := DownloadStatus.InProgress }

def c4st : LoopSt :=
  { w := { store := [c4item], files := [("/tmp/q.bin.download", 8)], events := [] },
    downloaded := 8, last := 199 / 2 }

/-- C4 witness: a final 2-byte chunk of a 10-byte download reaches exactly 100% while
the last acted-upon sample was 99.5 — an increase of only 0.5 points, below the 1.0
threshold — and the step still acts on it against the live store. -/
theorem C4_completion_always_flushes_witness :
    100 ≤ computeProgress 10 (c4st.downloaded + 2) ∧
    computeProgress 10 (c4st.downloaded + 2) - c4st.last ≤ PROGRESS_THRESHOLD ∧
    ((downloader.chunkStep c4item 10 2 c4st).ops.head?
        = some (StoreOp.get c4item.path) ∧
     (downloader.chunkStep c4item 10 2 c4st).ops ≠ []) := by
  have h : 100 ≤ computeProgress 10 (c4st.downloaded + 2) := by
    norm_num [computeProgress, c4st]
  refine ⟨h, ?_, C4_completion_always_flushes c4item 10 2 c4st h⟩
  norm_num [computeProgress, c4st, PROGRESS_THRESHOLD]

theorem storeInv_append {s : Store} {item : DownloadItem}
    (hs : storeInv s) (hi : item.status.persistable) : storeInv (s ++ [item]) := by
  intro j hj
  rcases List.mem_append.mp hj with hj | hj
  · exact hs j hj
  · simp only [List.mem_singleton] at hj
    rw [hj]
    exact hi

theorem storeInv_initFold :
    ∀ (todo : List DownloadItem) (s : Store), storeInv s →
      storeInv (DownloadManager.initFold todo s) := by
  intro todo
  induction todo with
  | nil => intro s hs; exact hs
  | cons t ts ih =>
    intro s hs
    simp only [DownloadManager.initFold, List.foldl_cons] at ih ⊢
    have hp : (DownloadManager.initReconcile t).status.persistable := by
      simp only [DownloadManager.initReconcile, DownloadItem.with_status]
      by_cases hz : t.progress = 0 <;>
        simp [hz, DownloadStatus.persistable]
    exact ih _ (DownloadStore.storeInv_update hs hp)

theorem spawnedTask_ops_preserve (cfg : DownloadConfig) (w : World)
    (original started : DownloadItem) (horig : original.status.persistable) :
    ∀ op ∈ (DownloadManager.spawnedTask cfg w original started).ops, opPreserves op := by
  intro op hop
  simp only [DownloadManager.spawnedTask] at hop
  cases hres : (downloader.download cfg w started).res with
  | ok u =>
    simp only [hres] at hop
    exact download_ops_preserve cfg w started op hop
  | error e =>
    simp only [hres] at hop
    rcases List.mem_append.mp hop with hop | hop
    · exact download_ops_preserve cfg w started op hop
    · simp only [List.mem_singleton] at hop
      rw [hop]
      exact opPreserves_update_of_persistable horig

/-- C5: the Store-status invariant (every persisted record is Idle, InProgress or
Paused) is preserved by every Manager operation that mutates the store (create, init,
pause, cancel) and by every store mutation the Downloader performs — every operation in
the trace of a download run, and of a full start/resume run including the rollback
update, maps invariant-satisfying stores to invariant-satisfying stores; Pending,
Cancelled, Completed and Unknown are therefore never persisted by any of them. -/
theorem C5_store_invariant :
    (∀ w path url resp w2, DownloadManager.create w path url = Except.ok (resp, w2) →
      storeInv w.store → storeInv w2.store) ∧
    (∀ w, storeInv w.store → storeInv (DownloadManager.init w).store) ∧
    (∀ w path resp w2, DownloadManager.pause w path = Except.ok (resp, w2) →
      storeInv w.store → storeInv w2.store) ∧
    (∀ rmOk w path resp w2, DownloadManager.cancel rmOk w path = Except.ok (resp, w2) →
      storeInv w.store → storeInv w2.store) ∧
    (∀ cfg w item op, op ∈ (downloader.download cfg w item).ops → opPreserves op) ∧
    (∀ cfg w path out op, DownloadManager.startAndRun cfg w path = Except.ok out →
      op ∈ out.ops → opPreserves op) ∧
    (∀ cfg w path out op, DownloadManager.resumeAndRun cfg w path = Except.ok out →
      op ∈ out.ops → opPreserves op) := by
  refine ⟨?_, ?_, ?_, ?_, ?_, ?_, ?_⟩
  · intro w path url resp w2 h hs
    simp only [DownloadManager.create] at h
    cases hvp : validatePath path with
    | error e => rw [hvp] at h; exact Except.noConfusion h
    | ok u =>
      cases u
      cases hvu : validateUrl url with
      | error e => simp only [hvp, hvu] at h; exact Except.noConfusion h
      | ok u2 =>
        cases u2
        cases hf : DownloadStore.find_by_path w.store path with
        | some existing =>
          simp only [hvp, hvu, hf, Except.ok.injEq, Prod.mk.injEq] at h
          rw [← h.2]
          exact hs
        | none =>
          simp only [hvp, hvu, hf] at h
          rw [store_create_of_absent hf] at h
          simp only [Except.ok.injEq, Prod.mk.injEq] at h
          rw [← h.2]
          exact storeInv_append hs (Or.inl rfl)
  · intro w hs
    simp only [DownloadManager.init]
    exact storeInv_initFold _ _ hs
  · intro w path resp w2 h hs
    simp only [DownloadManager.pause] at h
    cases hv : validatePath path with
    | error e => rw [hv] at h; exact Except.noConfusion h
    | ok u =>
      cases u
      cases hf : DownloadStore.find_by_path w.store path with
      | none => simp only [hv, hf] at h; exact Except.noConfusion h
      | some item =>
        simp only [hv, hf] at h
        cases hst : item.status <;>
          simp only [hst, Except.ok.injEq, Prod.mk.injEq] at h <;>
          obtain ⟨h1, h2⟩ := h <;> subst h2 <;>
          first
            | exact hs
            | exact DownloadStore.storeInv_update hs (Or.inr (Or.inr rfl))
  · intro rmOk w path resp w2 h hs
    simp only [DownloadManager.cancel] at h
    cases hv : validatePath path with
    | error e => rw [hv] at h; exact Except.noConfusion h
    | ok u =>
      cases u
      cases hf : DownloadStore.find_by_path w.store path with
      | none => simp only [hv, hf] at h; exact Except.noConfusion h
      | some item =>
        simp only [hv, hf] at h
        cases hst : item.status <;>
          simp only [hst, Except.ok.injEq, Prod.mk.injEq] at h <;>
          obtain ⟨h1, h2⟩ := h <;> subst h2 <;>
          first
            | exact hs
            | exact DownloadStore.storeInv_delete hs
  · exact download_ops_preserve
  · intro cfg w path out op hrun hop
    simp only [DownloadManager.startAndRun, DownloadManager.start] at hrun
    cases hv : validatePath path with
    | error e => rw [hv] at hrun; exact Except.noConfusion hrun
    | ok u =>
      cases u
      cases hf : DownloadStore.find_by_path w.store path with
      | none => simp only [hv, hf] at hrun; exact Except.noConfusion hrun
      | some item =>
        simp only [hv, hf] at hrun
        cases hst : item.status <;>
          simp only [hst, Except.ok.injEq] at hrun <;> subst hrun <;>
          first
            | exact spawnedTask_ops_preserve cfg w item
                (item.with_status DownloadStatus.InProgress) (Or.inl hst) op hop
            | simp at hop
  · intro cfg w path out op hrun hop
    simp only [DownloadManager.resumeAndRun, DownloadManager.resume] at hrun
    cases hv : validatePath path with
    | error e => rw [hv] at hrun; exact Except.noConfusion hrun
    | ok u =>
      cases u
      cases hf : DownloadStore.find_by_path w.store path with
      | none => simp only [hv, hf] at hrun; exact Except.noConfusion hrun
      | some item =>
        simp only [hv, hf] at hrun
        cases hst : item.status <;>
          simp only [hst, Except.ok.injEq] at hrun <;> subst hrun <;>
          first
            | exact spawnedTask_ops_preserve cfg w item
                (item.with_status DownloadStatus.InProgress) (Or.inr (Or.inr hst)) op hop
            | simp at hop

/-- C5 witness: the init conjunct of the invariant statement at a concrete store. -/
theorem C5_store_invariant_witness :
    storeInv c6world.store ∧ storeInv (DownloadManager.init c6world).store :=
  ⟨by decide, C5_store_invariant.2.1 c6world (by decide)⟩

/-- C10: when the resume offset is 0 (no partial file bytes for the path) and the
request transport succeeds, the downloader performs no check of the HTTP response
status: the run is identical for every status code (including 404 or 500), it opens the
partial file and streams the body (with no content-length header every successfully
received chunk is appended to the partial file, which ends holding exactly the
delivered bytes), an all-Ok body always ends with Ok, and an Http error can only arise
from a chunk-level stream error. -/
theorem C10_no_status_check (cfg : DownloadConfig) (w : World) (item : DownloadItem)
    (resp : HttpResponse)
    (hresp : cfg.response = Except.ok resp)
    (h0 : fileSize w.files (tempPath item.path) = 0) :
    (∀ n, downloader.download
        { cfg with response := Except.ok { resp with status := n } } w item
      = downloader.download cfg w item) ∧
    ((∀ c ∈ resp.chunks, ∃ k, c = Except.ok k) →
      (downloader.download cfg w item).res = Except.ok ()) ∧
    (∀ m, (downloader.download cfg w item).res = Except.error (Error.Http m) →
      ∃ s, Except.error s ∈ resp.chunks) ∧
    (resp.contentLength = none → (∀ c ∈ resp.chunks, ∃ k, c = Except.ok k) →
      fileSize (downloader.download cfg w item).world.files (tempPath item.path)
        = sumOk resp.chunks) := by
  refine ⟨?_, ?_, ?_, ?_⟩
  · intro n
    simp only [downloader.download, hresp, h0]
    norm_num
  · intro hok
    simp only [downloader.download, hresp, h0]
    norm_num
    cases hres : (downloader.downloadLoop item (totalSize resp.contentLength 0)
        resp.chunks cfg.interleave
        { w := { store := DownloadStore.update w.store
                   (item.with_status DownloadStatus.InProgress),
                 files := ensureFile w.files (tempPath item.path),
                 events := w.events ++ [item.with_status DownloadStatus.InProgress] },
          downloaded := 0, last := 0 }).res with
    | ok u => cases u; rfl
    | error e =>
      obtain ⟨s, hs⟩ := downloadLoop_error_chunk item _ _ _ _ _ hres
      obtain ⟨k, hk⟩ := hok _ hs
      exact Except.noConfusion hk
  · intro m h
    simp only [downloader.download, hresp, h0] at h
    norm_num at h
    exact downloadLoop_error_chunk item _ _ _ _ _ h
  · intro hcl hok
    simp only [downloader.download, hresp, h0, hcl]
    norm_num
    simp only [totalSize]
    rw [downloadLoop_total_zero_files item resp.chunks cfg.interleave
      { w := { store := DownloadStore.update w.store
                 (item.with_status DownloadStatus.InProgress),
               files := ensureFile w.files (tempPath item.path),
               events := w.events ++ [item.with_status DownloadStatus.InProgress] },
        downloaded := 0, last := 0 } hok rfl]
    rw [fileSize_ensureFile, h0]
    omega

def c10item : DownloadItem :=
  { url := exUrl, path := "/tmp/n.bin", progress := 0, status := DownloadStatus.InProgress }

def c10world : World := { store := [c10item], files := [], events := [] }

def c10resp : HttpResponse :=
  { status := 404, contentLength := none, chunks := [Except.ok 5] }

def c10cfg : DownloadConfig := { response := Except.ok c10resp, interleave := [] }

/-- C10 witness: with no partial file, a 404 response with one 5-byte chunk runs
exactly like a 200 response, succeeds, and streams the 5 bytes into the partial
file. -/
theorem C10_no_status_check_witness :
    c10cfg.response = Except.ok c10resp ∧
    fileSize c10world.files (tempPath c10item.path) = 0 ∧
    downloader.download
        { c10cfg with response := Except.ok { c10resp with status := 200 } }
        c10world c10item
      = downloader.download c10cfg c10world c10item ∧
    (downloader.download c10cfg c10world c10item).res = Except.ok () ∧
    fileSize (downloader.download c10cfg c10world c10item).world.files
        (tempPath c10item.path) = sumOk c10resp.chunks := by
  have h := C10_no_status_check c10cfg c10world c10item c10resp rfl (by decide)
  refine ⟨rfl, by decide, h.1 200, ?_, ?_⟩
  · refine h.2.1 (fun c hc => ?_)
    simp only [c10resp, List.mem_singleton] at hc
    exact ⟨5, hc⟩
  · refine h.2.2.2 rfl (fun c hc => ?_)
    simp only [c10resp, List.mem_singleton] at hc
    exact ⟨5, hc⟩
